import Mathlib

/-!
Shallow embedding of the core of the github-workflow-dashboard client:
the encrypted local store (src/lib/storage/secure-storage.ts), the
GitHub API client reductions (lib/api/github.ts), and the selection /
refresh logic of the two React contexts
(src/contexts/repository-selection-context.tsx,
src/contexts/github-token-context.tsx).

External collaborators (Web Crypto, localStorage, the GitHub REST API,
JSON serialization) are modelled symbolically but executably: AES-GCM is
an ideal authenticated cipher whose ciphertext records the key, IV and
plaintext and whose decryption succeeds exactly when key and IV match;
the digest is a deterministic encoding (the development relies only on
the digest being a fixed function of its input); network calls appear as
explicit `Except`-valued parameters, and the random salt / IV drawn by
`crypto.getRandomValues` appear as explicit arguments, so theorems
quantify over them.
-/

/-- Device fingerprint inputs used by `getDevicePassword` in
src/lib/storage/secure-storage.ts: user agent, language, screen
dimensions and timezone offset.  "Same device" means equal fingerprints. -/
structure DeviceFingerprint where
  userAgent : String
  language : String
  screenDims : String
  timezoneOffset : String
  deriving DecidableEq

/-- Lower-case hex digit of a value below 16. -/
def hexDigit (n : Nat) : Char :=
  if n < 10 then Char.ofNat (48 + n) else Char.ofNat (87 + n)

/-- Model of the external Web Crypto digest pipeline in
`getDevicePassword` (`crypto.subtle.digest("SHA-256", ·)` followed by
byte-wise hex rendering): a deterministic hex encoding of the input's
code points.  The development relies only on the digest being a fixed
deterministic function of its input. -/
def sha256Hex (s : String) : String :=
  String.mk (s.toList.foldr
    (fun c acc => hexDigit (c.toNat / 16 % 16) :: hexDigit (c.toNat % 16) :: acc) [])

/-- The fingerprint string assembled in `getDevicePassword`
(secure-storage.ts lines 49-56): the four environment attributes and the
fixed application salt joined by `"|"`. -/
def fingerprintString (d : DeviceFingerprint) : String :=
  String.intercalate "|"
    [d.userAgent, d.language, d.screenDims, d.timezoneOffset, "github-flow-dashboard-v1"]

/-- `getDevicePassword` (secure-storage.ts lines 44-68): hash the
fingerprint, keep the first 32 hex characters, prepend `"pwd_"`. -/
def getDevicePassword (d : DeviceFingerprint) : String :=
  "pwd_" ++ (sha256Hex (fingerprintString d)).take 32

/-- Symbolic PBKDF2-derived AES key (secure-storage.ts lines 118-137):
determined by the password and the salt.  Two calls with the same
password and salt yield the same key. -/
structure DerivedKey where
  password : String
  salt : List Nat
  deriving DecidableEq

/-- `deriveKey` from `crypto.subtle.deriveKey` with PBKDF2:
modelled as the pair of its determining inputs. -/
def deriveKey (password : String) (salt : List Nat) : DerivedKey :=
  ⟨password, salt⟩

/-- Ideal-cipher model of an AES-GCM ciphertext over plaintexts of type
`α`: the ciphertext is opaque to everything in the development except
`aesGcmDecrypt`, which recovers the plaintext exactly when key and IV
match (authenticated encryption). -/
structure Cipher (α : Type) where
  key : DerivedKey
  iv : List Nat
  plaintext : α
  deriving DecidableEq

/-- `crypto.subtle.encrypt` with AES-GCM, symbolically. -/
def aesGcmEncrypt {α : Type} (k : DerivedKey) (iv : List Nat) (m : α) : Cipher α :=
  ⟨k, iv, m⟩

/-- `crypto.subtle.decrypt` with AES-GCM, symbolically: succeeds with
the original plaintext when the key and IV match the ones used for
encryption, fails (the promise rejects) otherwise. -/
def aesGcmDecrypt {α : Type} [DecidableEq α] (k : DerivedKey) (iv : List Nat)
    (c : Cipher α) : Option α :=
  if c.key = k ∧ c.iv = iv then some c.plaintext else none

/-- A value found under a key in the localStorage substrate, as seen by
`getSecureItem` after `JSON.parse`: either a well-formed envelope
`{encrypted, salt, iv, timestamp}` (secure-storage.ts lines 147-152), or
anything that fails `JSON.parse` or the byte-array-fields validation of
lines 182-191 (missing field, non-array field, non-JSON text). -/
inductive StoredValue (α : Type) where
  | env (encrypted : Cipher α) (salt : List Nat) (iv : List Nat) (timestamp : Nat)
  | malformed
  deriving DecidableEq

/-- The localStorage substrate: an association of string keys to stored
values (later `setItem` writes shadow earlier ones). -/
abbrev Store (α : Type) : Type := List (String × StoredValue α)

/-- `localStorage.getItem`. -/
def Store.lookup {α : Type} (st : Store α) (k : String) : Option (StoredValue α) :=
  (st.find? (fun p => p.1 == k)).map (fun p => p.2)

/-- `localStorage.removeItem`. -/
def Store.removeItem {α : Type} (st : Store α) (k : String) : Store α :=
  st.filter (fun p => p.1 != k)

/-- `localStorage.setItem`. -/
def Store.setItem {α : Type} (st : Store α) (k : String) (v : StoredValue α) : Store α :=
  (k, v) :: st.removeItem k

/-- `setSecureItem` (secure-storage.ts lines 101-160) on an available
device: derive the device password from the fingerprint `d`, take the
fresh random `salt` and `iv` (explicit arguments standing for
`crypto.getRandomValues`), derive the key, encrypt `value`, and store
the envelope with the current timestamp `now` under `key`. -/
def setSecureItem {α : Type} (d : DeviceFingerprint) (salt iv : List Nat) (now : Nat)
    (key : String) (value : α) (st : Store α) : Store α :=
  let devicePassword := getDevicePassword d
  let derivedKey := deriveKey devicePassword salt
  let encryptedData := aesGcmEncrypt derivedKey iv value
  st.setItem key (StoredValue.env encryptedData salt iv now)

/-- `getSecureItem` (secure-storage.ts lines 165-234) on an available
device: absent key gives `none` with the store untouched; a malformed
envelope throws inside the `try`, so the `catch` removes the entry and
returns `none`; a well-formed envelope has its key rederived from the
stored salt and is decrypted, any decryption failure again removing the
entry and returning `none`.  The function is total: no exception
propagates to the caller. -/
def getSecureItem {α : Type} [DecidableEq α] (d : DeviceFingerprint) (key : String)
    (st : Store α) : Option α × Store α :=
  match st.lookup key with
  | none => (none, st)
  | some StoredValue.malformed => (none, st.removeItem key)
  | some (StoredValue.env encrypted salt iv _timestamp) =>
    let devicePassword := getDevicePassword d
    let derivedKey := deriveKey devicePassword salt
    match aesGcmDecrypt derivedKey iv encrypted with
    | some decryptedData => (some decryptedData, st)
    | none => (none, st.removeItem key)

/-- A stored value on which `getSecureItem` under fingerprint `d` must
fail: either it is malformed (fails parsing/validation), or its
authenticated decryption with the key rederived from the stored salt and
the device password of `d` fails (wrong device fingerprint, tampered
ciphertext, mismatched IV). -/
def decryptionFails {α : Type} [DecidableEq α] (d : DeviceFingerprint) :
    StoredValue α → Prop
  | StoredValue.malformed => True
  | StoredValue.env encrypted salt iv _timestamp =>
    aesGcmDecrypt (deriveKey (getDevicePassword d) salt) iv encrypted = none

-- Substrate lemmas

theorem Store.lookup_setItem {α : Type} (st : Store α) (k : String) (v : StoredValue α) :
    (st.setItem k v).lookup k = some v := by
  simp [Store.setItem, Store.lookup, List.find?]

theorem Store.lookup_removeItem {α : Type} (st : Store α) (k : String) :
    (st.removeItem k).lookup k = none := by
  have h : (st.removeItem k).find? (fun p => p.1 == k) = none := by
    rw [List.find?_eq_none]
    intro p hp
    have := List.of_mem_filter hp
    simpa using this
  simp [Store.lookup, h]

/-- Shared round-trip lemma: on one device, reading a key right after
writing it recovers the written plaintext. -/
theorem getSecureItem_after_set {α : Type} [DecidableEq α] (d : DeviceFingerprint)
    (salt iv : List Nat) (now : Nat) (key : String) (value : α) (st : Store α) :
    getSecureItem d key (setSecureItem d salt iv now key value st) = (some value, setSecureItem d salt iv now key value st) := by
  simp [getSecureItem, setSecureItem, Store.lookup_setItem, aesGcmEncrypt, aesGcmDecrypt]

/-- Shared failure lemma: whenever the stored value under `key` cannot
be decrypted, `getSecureItem` returns `none` and deletes the entry. -/
theorem getSecureItem_fails {α : Type} [DecidableEq α] (d : DeviceFingerprint)
    (key : String) (st : Store α) (v : StoredValue α)
    (hst : st.lookup key = some v) (hv : decryptionFails d v) :
    (getSecureItem d key st).1 = none ∧ ((getSecureItem d key st).2).lookup key = none := by
  cases v with
  | malformed =>
    simp [getSecureItem, hst, Store.lookup_removeItem]
  | env encrypted salt iv timestamp =>
    simp only [decryptionFails] at hv
    simp [getSecureItem, hst, hv, Store.lookup_removeItem]

-- GitHub API client model (lib/api/github.ts)

/-- A workflow run as far as the reductions in lib/api/github.ts look at
it: its id, the id of its parent workflow, and its creation timestamp
(`created_at`, as compared through `new Date(...)`, modelled as epoch
milliseconds). -/
structure GitHubWorkflowRun where
  id : Nat
  workflow_id : Nat
  created_at : Nat
  deriving DecidableEq

/-- A workflow as listed by `getWorkflows`. -/
structure GitHubWorkflow where
  id : Nat
  name : String
  deriving DecidableEq

/-- `getWorkflowRuns` (github.ts lines 129-154) against a repository
whose run feed, newest first as the REST API returns it, is `runsFeed`:
a call with `per_page` and no other filter returns the first `per_page`
entries of the feed. -/
def getWorkflowRuns (runsFeed : List GitHubWorkflowRun) (perPage : Nat) :
    List GitHubWorkflowRun :=
  runsFeed.take perPage

/-- The loop body accumulator step of `getLatestWorkflowRuns`
(github.ts lines 156-177): one iteration per workflow; each iteration
calls `getWorkflowRuns` with `per_page: 1` and no per-workflow filter
and pushes `runs[0]` when the page is non-empty. -/
def getLatestWorkflowRuns (workflows : List GitHubWorkflow)
    (runsFeed : List GitHubWorkflowRun) : List GitHubWorkflowRun :=
  workflows.foldl
    (fun latestRuns _workflow =>
      match getWorkflowRuns runsFeed 1 with
      | [] => latestRuns
      | r :: _ => latestRuns ++ [r])
    []

/-- One step of the reduction loop of `getLatestWorkflowStatuses`
(github.ts lines 219-224): keep `run` for its workflow id when no run
has been kept for it yet or when `run` is strictly newer than the kept
one. -/
def updateLatest (latestByWorkflow : Nat → Option GitHubWorkflowRun)
    (run : GitHubWorkflowRun) : Nat → Option GitHubWorkflowRun :=
  match latestByWorkflow run.workflow_id with
  | none =>
    fun workflowId =>
      if workflowId = run.workflow_id then some run else latestByWorkflow workflowId
  | some prev =>
    if prev.created_at < run.created_at then
      fun workflowId =>
        if workflowId = run.workflow_id then some run else latestByWorkflow workflowId
    else latestByWorkflow

/-- `getLatestWorkflowStatuses` (github.ts lines 199-227), given the
page of recent runs it fetched: group by `workflow_id`, keeping only the
latest run (by `created_at`) for each workflow.  The resulting mapping
sends a workflow id to the run kept for it, or `none` when no run of
that workflow occurs. -/
def getLatestWorkflowStatuses (runs : List GitHubWorkflowRun) :
    Nat → Option GitHubWorkflowRun :=
  runs.foldl updateLatest (fun _ => none)

/-- Result shape of `hasRecentWorkflowActivity`. -/
structure ActivityCheckResult where
  hasActivity : Bool
  latestRun : Option GitHubWorkflowRun
  totalRuns : Nat
  deriving DecidableEq

/-- Milliseconds per day, for the `daysBack` cutoff. -/
def dayMillis : Nat := 86400000

/-- `hasRecentWorkflowActivity` (github.ts lines 229-273).  The two
network calls it can make appear as the `Except`-valued arguments
`runsResult` (the `per_page: 1` run listing) and `workflowsResult` (the
workflow listing used by the first fallback).  The calendar cutoff
`cutoffDate.setDate(getDate() - daysBack)` is modelled as `now` minus
`daysBack` days of milliseconds.  The function is total: both `catch`
branches are explicit and no exception reaches the caller. -/
def hasRecentWorkflowActivity (daysBack now : Nat)
    (runsResult : Except String (List GitHubWorkflowRun))
    (workflowsResult : Except String (List GitHubWorkflow)) : ActivityCheckResult :=
  match runsResult with
  | Except.ok runs =>
    match runs with
    | [] => ⟨false, none, 0⟩
    | latestRun :: _ =>
      let cutoff := now - daysBack * dayMillis
      let hasActivity := decide (cutoff ≤ latestRun.created_at)
      ⟨hasActivity, if hasActivity then some latestRun else none, runs.length⟩
  | Except.error _ =>
    match workflowsResult with
    | Except.ok workflows => ⟨decide (0 < workflows.length), none, 0⟩
    | Except.error _ => ⟨false, none, 0⟩

-- Repository selection context model (src/contexts/repository-selection-context.tsx)

/-- The derived workflow classification of a repository
(repository-selection-context.tsx lines 26-31).  The spec's
has-activity / no-activity / check-failed are the source's
`"has-workflows"` / `"no-workflows"` / `"error"`. -/
inductive WorkflowStatus where
  | unknown
  | checking
  | hasWorkflows
  | noWorkflows
  | checkFailed
  deriving DecidableEq

/-- A repository together with its derived classification
(`RepositoryWithWorkflowStatus`), restricted to the fields the embedded
logic reads: identity, name, the archived/disabled flags and the
classification with its activity count. -/
structure RepositoryWithWorkflowStatus where
  id : Nat
  name : String
  archived : Bool
  disabled : Bool
  workflowStatus : WorkflowStatus
  workflowCount : Nat
  deriving DecidableEq

/-- `toggleRepository` (repository-selection-context.tsx lines 333-359):
repositories whose status is neither `has-workflows` nor `no-workflows`
cannot be toggled at all; otherwise membership in the selection flips
(matched by repository id). -/
def toggleRepository (repository : RepositoryWithWorkflowStatus)
    (current : List RepositoryWithWorkflowStatus) :
    List RepositoryWithWorkflowStatus :=
  if repository.workflowStatus ≠ WorkflowStatus.hasWorkflows ∧
      repository.workflowStatus ≠ WorkflowStatus.noWorkflows then
    current
  else if current.any (fun repo => repo.id == repository.id) then
    current.filter (fun repo => repo.id != repository.id)
  else
    current ++ [repository]

/-- `clearSelection` (repository-selection-context.tsx lines 368-370):
the new in-memory selection state. -/
def clearSelection : List RepositoryWithWorkflowStatus := []

/-- The storage key `STORAGE_KEYS.SELECTED_REPOSITORIES`. -/
def SELECTED_REPOSITORIES_KEY : String := "github_flow_dashboard_selected_repos"

/-- The persistence effect `saveSelectedRepositories`
(repository-selection-context.tsx lines 130-145): the selection is
written to the encrypted store only when it is non-empty; an empty
selection writes nothing.  JSON round-tripping of the records is the
identity in this model, so the store's plaintext type is the record list
itself. -/
def saveSelectedRepositories (d : DeviceFingerprint) (salt iv : List Nat) (now : Nat)
    (selectedRepositories : List RepositoryWithWorkflowStatus)
    (st : Store (List RepositoryWithWorkflowStatus)) :
    Store (List RepositoryWithWorkflowStatus) :=
  if 0 < selectedRepositories.length then
    setSecureItem d salt iv now SELECTED_REPOSITORIES_KEY selectedRepositories st
  else st

/-- The restore path of `loadStoredData`
(repository-selection-context.tsx lines 98-127): read the stored
selection and map every member to `workflowStatus: "unknown"` ("will be
updated when workflows are checked").  Returns the restored in-memory
selection (or `none` when nothing was stored or reading failed) together
with the store as the read left it. -/
def loadStoredSelection (d : DeviceFingerprint)
    (st : Store (List RepositoryWithWorkflowStatus)) :
    Option (List RepositoryWithWorkflowStatus) × Store (List RepositoryWithWorkflowStatus) :=
  let read := getSecureItem d SELECTED_REPOSITORIES_KEY st
  (read.1.map (fun repositories =>
      repositories.map (fun repo => { repo with workflowStatus := WorkflowStatus.unknown })),
    read.2)

-- Pagination loop of fetchRepositories (repository-selection-context.tsx lines 237-331)

/-- One page of a mock collection as `getRepositories` returns it for
`page` (1-based) and `per_page`: the REST contract serves the items in
order, `perPage` at a time, the last page short or empty. -/
def mockPage {α : Type} (items : List α) (perPage page : Nat) : List α :=
  (items.drop ((page - 1) * perPage)).take perPage

/-- The `while (true)` page loop of `fetchRepositories`
(repository-selection-context.tsx lines 263-292), returning the
accumulated repositories together with the number of page requests
issued.  Each iteration fetches one page; a non-empty page is appended;
an empty page breaks; a page shorter than `perPage` breaks; otherwise
the page number is incremented.  `fuel` is an upper bound on the number
of iterations, consumed one per request; the caller supplies enough that
it never runs out. -/
def fetchPagesAux {α : Type} (fuel : Nat) (items : List α) (perPage page : Nat) :
    List α × Nat :=
  match fuel with
  | 0 => ([], 0)
  | fuel + 1 =>
    let pageRepositories := mockPage items perPage page
    if pageRepositories.length = 0 then ([], 1)
    else if pageRepositories.length < perPage then (pageRepositories, 1)
    else
      let rest := fetchPagesAux fuel items perPage (page + 1)
      (pageRepositories ++ rest.1, 1 + rest.2)

/-- The repository enumeration of `fetchRepositories`: `perPage` is the
maximum page size 100 (line 261), pages start at 1. -/
def fetchRepositoriesPages {α : Type} (items : List α) : List α × Nat :=
  fetchPagesAux (items.length + 2) items 100 1

-- Workflow refresh model (github-token-context.tsx lines 433-511)

/-- One tracked repository's entry in the `repositoryWorkflows` state of
the token context: the per-repository latest-run list shown in the UI,
its loading flag, its error slot and its per-resource "last updated"
time. -/
structure RepositoryWorkflows where
  repositoryId : Nat
  workflows : List GitHubWorkflowRun
  isLoading : Bool
  error : Option String
  lastUpdated : Option Nat
  deriving DecidableEq

/-- The value one settled promise of the `refreshWorkflows` fan-out
contributes (github-token-context.tsx lines 447-482). -/
structure RefreshResult where
  repositoryId : Nat
  workflows : List GitHubWorkflowRun
  error : Option String
  deriving DecidableEq

/-- The per-repository worker of `refreshWorkflows`: the inner
`try`/`catch` turns the (mocked) fetch outcome for this repository into
a result record — the fetched latest-status array on success, an empty
array plus the error message on failure — so the promise never
rejects.  `fetchStatuses` stands for
`getLatestWorkflowStatuses` followed by `Object.values`, keyed by
repository id. -/
def refreshResultFor (fetchStatuses : Nat → Except String (List GitHubWorkflowRun))
    (rw : RepositoryWorkflows) : RefreshResult :=
  match fetchStatuses rw.repositoryId with
  | Except.ok workflows => ⟨rw.repositoryId, workflows, none⟩
  | Except.error e => ⟨rw.repositoryId, [], some e⟩

/-- `refreshWorkflows` (github-token-context.tsx lines 433-511): fan out
one worker per tracked repository, wait for all to settle
(`Promise.all` over never-rejecting promises), merge each result into
the entry with the matching repository id with a fresh per-resource
timestamp, then stamp the single global last-update time.  Returns the
new `repositoryWorkflows` state and the new global timestamp. -/
def refreshWorkflows (fetchStatuses : Nat → Except String (List GitHubWorkflowRun))
    (now : Nat) (repositoryWorkflows : List RepositoryWorkflows) :
    List RepositoryWorkflows × Option Nat :=
  let results := repositoryWorkflows.map (refreshResultFor fetchStatuses)
  (repositoryWorkflows.map (fun rw =>
      match results.find? (fun r => r.repositoryId == rw.repositoryId) with
      | none => rw
      | some result =>
        { rw with
            workflows := result.workflows
            error := result.error
            isLoading := false
            lastUpdated := some now }),
    some now)

-- Sample data for concrete instantiations

/-- A concrete simulated device. -/
def sampleDevice : DeviceFingerprint := ⟨"ua", "en", "1920x1080", "0"⟩

/-- A concrete non-empty selection whose single member carries a
terminal classification. -/
def sampleSelection : List RepositoryWithWorkflowStatus :=
  [⟨1, "repo", false, false, WorkflowStatus.hasWorkflows, 3⟩]

/-- A mocked per-repository fetch in which resource 3 rejects and every
other resource resolves with one fresh run. -/
def sampleFetch : Nat → Except String (List GitHubWorkflowRun) :=
  fun repositoryId =>
    if repositoryId = 3 then Except.error "boom"
    else Except.ok [⟨100, 7, 50⟩]

/-- Five watched resources with empty initial status data. -/
def sampleState : List RepositoryWorkflows :=
  [⟨1, [], false, none, none⟩, ⟨2, [], false, none, none⟩, ⟨3, [], false, none, none⟩,
    ⟨4, [], false, none, none⟩, ⟨5, [], false, none, none⟩]

/-- Invariant of the reduction loop of `getLatestWorkflowStatuses`: after
processing the runs in `seen`, the accumulated mapping is defined exactly
on the workflow ids occurring in `seen`, and sends each to a run of
`seen` with that id whose creation time is maximal among them. -/
def LatestInv (seen : List GitHubWorkflowRun)
    (acc : Nat → Option GitHubWorkflowRun) : Prop :=
  ∀ workflowId : Nat,
    (∀ r : GitHubWorkflowRun, acc workflowId = some r →
      r ∈ seen ∧ r.workflow_id = workflowId ∧
        ∀ r2 ∈ seen, r2.workflow_id = workflowId → r2.created_at ≤ r.created_at) ∧
    (acc workflowId = none → ∀ r2 ∈ seen, r2.workflow_id ≠ workflowId)

-- Shared helper lemmas

theorem latestInv_nil : LatestInv [] (fun _ => none) := by
  intro workflowId
  constructor
  · intro r hr
    simp at hr
  · intro _ r2 hr2
    simp at hr2

theorem updateLatest_of_none (acc : Nat → Option GitHubWorkflowRun)
    (run : GitHubWorkflowRun) (hacc : acc run.workflow_id = none) :
    updateLatest acc run
      = fun workflowId =>
          if workflowId = run.workflow_id then some run else acc workflowId := by
  unfold updateLatest
  simp only [hacc]

theorem updateLatest_of_newer (acc : Nat → Option GitHubWorkflowRun)
    (run prev : GitHubWorkflowRun) (hacc : acc run.workflow_id = some prev)
    (hlt : prev.created_at < run.created_at) :
    updateLatest acc run
      = fun workflowId =>
          if workflowId = run.workflow_id then some run else acc workflowId := by
  unfold updateLatest
  simp only [hacc, if_pos hlt]

theorem updateLatest_of_older (acc : Nat → Option GitHubWorkflowRun)
    (run prev : GitHubWorkflowRun) (hacc : acc run.workflow_id = some prev)
    (hlt : ¬ prev.created_at < run.created_at) :
    updateLatest acc run = acc := by
  unfold updateLatest
  simp only [hacc, if_neg hlt]

theorem latestInv_step (seen : List GitHubWorkflowRun)
    (acc : Nat → Option GitHubWorkflowRun) (run : GitHubWorkflowRun)
    (h : LatestInv seen acc) : LatestInv (seen ++ [run]) (updateLatest acc run) := by
  have hwrite : (∀ r2 ∈ seen, r2.workflow_id = run.workflow_id →
        r2.created_at ≤ run.created_at) →
      LatestInv (seen ++ [run])
        (fun workflowId =>
          if workflowId = run.workflow_id then some run else acc workflowId) := by
    intro hmax workflowId
    constructor
    · intro r hr
      replace hr : (if workflowId = run.workflow_id then some run
          else acc workflowId) = some r := hr
      by_cases hw : workflowId = run.workflow_id
      · rw [if_pos hw] at hr
        have hrun : run = r := (Option.some.injEq run r).mp hr
        subst hrun
        subst hw
        refine ⟨List.mem_append.mpr (Or.inr (by simp)), rfl, ?_⟩
        intro r2 hr2 hid2
        rcases List.mem_append.mp hr2 with h2 | h2
        · exact hmax r2 h2 hid2
        · rw [List.mem_singleton.mp h2]
      · rw [if_neg hw] at hr
        obtain ⟨hmem, hid, hle⟩ := (h workflowId).1 r hr
        refine ⟨List.mem_append.mpr (Or.inl hmem), hid, ?_⟩
        intro r2 hr2 hid2
        rcases List.mem_append.mp hr2 with h2 | h2
        · exact hle r2 h2 hid2
        · rw [List.mem_singleton.mp h2] at hid2
          exact absurd hid2.symm hw
    · intro hnone
      replace hnone : (if workflowId = run.workflow_id then some run
          else acc workflowId) = none := hnone
      by_cases hw : workflowId = run.workflow_id
      · rw [if_pos hw] at hnone
        exact absurd hnone (by simp)
      · rw [if_neg hw] at hnone
        intro r2 hr2
        rcases List.mem_append.mp hr2 with h2 | h2
        · exact (h workflowId).2 hnone r2 h2
        · rw [List.mem_singleton.mp h2]
          exact fun hc => hw hc.symm
  cases hacc : acc run.workflow_id with
  | none =>
    rw [updateLatest_of_none acc run hacc]
    apply hwrite
    intro r2 hr2 hid
    exact absurd hid ((h run.workflow_id).2 hacc r2 hr2)
  | some prev =>
    by_cases hlt : prev.created_at < run.created_at
    · rw [updateLatest_of_newer acc run prev hacc hlt]
      apply hwrite
      intro r2 hr2 hid
      obtain ⟨_, _, hle⟩ := (h run.workflow_id).1 prev hacc
      exact le_trans (hle r2 hr2 hid) (le_of_lt hlt)
    · rw [updateLatest_of_older acc run prev hacc hlt]
      intro workflowId
      constructor
      · intro r hr
        obtain ⟨hmem, hid, hle⟩ := (h workflowId).1 r hr
        refine ⟨List.mem_append.mpr (Or.inl hmem), hid, ?_⟩
        intro r2 hr2 hid2
        rcases List.mem_append.mp hr2 with h2 | h2
        · exact hle r2 h2 hid2
        · have hr2run : r2 = run := List.mem_singleton.mp h2
          subst hr2run
          have hwid : acc workflowId = some prev := by
            rw [← hid2]
            exact hacc
          have hrprev : prev = r := by
            rw [hwid] at hr
            exact (Option.some.injEq prev r).mp hr
          rw [← hrprev]
          exact Nat.le_of_not_lt hlt
      · intro hnone r2 hr2
        rcases List.mem_append.mp hr2 with h2 | h2
        · exact (h workflowId).2 hnone r2 h2
        · have hr2run : r2 = run := List.mem_singleton.mp h2
          subst hr2run
          intro hc
          rw [← hc] at hnone
          rw [hacc] at hnone
          exact Option.noConfusion hnone

theorem latestInv_foldl (runs : List GitHubWorkflowRun) :
    ∀ (seen : List GitHubWorkflowRun) (acc : Nat → Option GitHubWorkflowRun),
      LatestInv seen acc → LatestInv (seen ++ runs) (runs.foldl updateLatest acc) := by
  induction runs with
  | nil =>
    intro seen acc h
    simpa using h
  | cons run runs ih =>
    intro seen acc h
    have h2 := ih (seen ++ [run]) (updateLatest acc run) (latestInv_step seen acc run h)
    simpa using h2

theorem foldl_push_replicate {α β : Type} (ws : List β) (acc : List α) (r : α) :
    ws.foldl (fun latestRuns _ => latestRuns ++ [r]) acc
      = acc ++ List.replicate ws.length r := by
  induction ws generalizing acc with
  | nil => simp
  | cons w ws ih => simp [List.foldl, ih, List.replicate_succ]

theorem refreshResultFor_repositoryId
    (fetchStatuses : Nat → Except String (List GitHubWorkflowRun))
    (rw : RepositoryWorkflows) :
    (refreshResultFor fetchStatuses rw).repositoryId = rw.repositoryId := by
  unfold refreshResultFor
  cases fetchStatuses rw.repositoryId <;> rfl

theorem refreshResultFor_congr
    (fetchStatuses : Nat → Except String (List GitHubWorkflowRun))
    (a b : RepositoryWorkflows) (h : a.repositoryId = b.repositoryId) :
    refreshResultFor fetchStatuses a = refreshResultFor fetchStatuses b := by
  unfold refreshResultFor
  rw [h]

theorem find_refreshResult
    (fetchStatuses : Nat → Except String (List GitHubWorkflowRun))
    (state : List RepositoryWorkflows) (rw : RepositoryWorkflows) (h : rw ∈ state) :
    (state.map (refreshResultFor fetchStatuses)).find?
        (fun r => r.repositoryId == rw.repositoryId)
      = some (refreshResultFor fetchStatuses rw) := by
  induction state with
  | nil => cases h
  | cons a l ih =>
    by_cases ha : a.repositoryId = rw.repositoryId
    · rw [List.map_cons, refreshResultFor_congr fetchStatuses a rw ha]
      apply List.find?_cons_of_pos
      simp [refreshResultFor_repositoryId]
    · have hmem : rw ∈ l := by
        rcases List.mem_cons.mp h with heq | hmem
        · exact absurd (heq ▸ rfl) ha
        · exact hmem
      rw [List.map_cons, List.find?_cons_of_neg]
      · exact ih hmem
      · simp [refreshResultFor_repositoryId, ha]

-- Claim theorems

/-- C1: for every string `s` and key `k`, on the same device (same
fingerprint, hence the same derived device password), `getSecureItem k`
performed right after `setSecureItem k s` returns exactly `s`, for every
choice of the fresh random salt and IV drawn by the put: the salt is
stored in the envelope and the key is rederived from it. -/
theorem put_get_roundtrip (d : DeviceFingerprint) (salt iv : List Nat) (now : Nat)
    (key s : String) (st : Store String) :
    (getSecureItem d key (setSecureItem d salt iv now key s st)).1 = some s := by
  simp [getSecureItem_after_set]

set_option maxRecDepth 4000 in
/-- C2 counterexample: for a mock collection of exactly `3 * pageLimit`
items (`pageLimit = 100`, the maximum page size the code uses), the page
loop of `fetchRepositories` does not issue exactly 3 page requests: the
third page is full, so the loop must issue a fourth request, which comes
back empty and ends the enumeration. -/
theorem pagination_three_full_pages_cex :
    (fetchRepositoriesPages (List.range 300)).2 ≠ 3 := by decide

set_option maxRecDepth 4000 in
/-- C2 amended: discovery enumerates pages of size 100 and stops per the
rule "a page shorter than the limit is the last page; an empty page ends
enumeration": for exactly `3 * pageLimit` items it issues exactly 4 page
requests (3 full pages plus the empty page that ends enumeration) and
terminates with all items; for `3 * pageLimit - 1` items it issues
exactly 3 requests (the last one short) and terminates with all items;
for 0 items it issues exactly 1 request and terminates with the empty
list. -/
theorem pagination_termination_counts :
    fetchRepositoriesPages (List.range 300) = (List.range 300, 4) ∧
    fetchRepositoriesPages (List.range 299) = (List.range 299, 3) ∧
    fetchRepositoriesPages ([] : List Nat) = ([], 1) := by
  refine ⟨?_, ?_, ?_⟩ <;> rfl

/-- C3: for every key whose stored entry is malformed (missing or
non-array byte-array field, unparsable text) or fails authenticated
decryption (wrong device fingerprint, tampered ciphertext, truncation),
`getSecureItem` returns `none`, and the offending entry is deleted from
the substrate: a subsequent raw lookup finds no entry.  `getSecureItem`
is a total function, so no exception propagates out of it. -/
theorem getSecureItem_failure_selfheals (d : DeviceFingerprint) (key : String)
    (st : Store String) (v : StoredValue String)
    (hstored : st.lookup key = some v) (hfails : decryptionFails d v) :
    (getSecureItem d key st).1 = none ∧ ((getSecureItem d key st).2).lookup key = none :=
  getSecureItem_fails d key st v hstored hfails

set_option maxRecDepth 8000 in
/-- C3 witness: a malformed entry and an entry encrypted under a
different device password both make `getSecureItem` return `none` and
delete the entry. -/
theorem getSecureItem_failure_selfheals_witness :
    ((getSecureItem sampleDevice "k" ([("k", StoredValue.malformed)] : Store String)).1 = none ∧
      ((getSecureItem sampleDevice "k"
        ([("k", StoredValue.malformed)] : Store String)).2).lookup "k" = none) ∧
    ((getSecureItem sampleDevice "k"
        ([("k", StoredValue.env ⟨⟨"pwd_x", [7]⟩, [8], "secret"⟩ [7] [8] 0)] : Store String)).1
          = none ∧
      ((getSecureItem sampleDevice "k"
        ([("k", StoredValue.env ⟨⟨"pwd_x", [7]⟩, [8], "secret"⟩ [7] [8] 0)]
          : Store String)).2).lookup "k" = none) :=
  ⟨getSecureItem_failure_selfheals sampleDevice "k" _ StoredValue.malformed (by decide) trivial,
    getSecureItem_failure_selfheals sampleDevice "k" _
      (StoredValue.env ⟨⟨"pwd_x", [7]⟩, [8], "secret"⟩ [7] [8] 0) (by decide)
      (show aesGcmDecrypt (deriveKey (getDevicePassword sampleDevice) [7]) [8]
          ⟨⟨"pwd_x", [7]⟩, [8], "secret"⟩ = none by decide)⟩

/-- C4: for every list of fetched runs, `getLatestWorkflowStatuses`
returns a mapping defined exactly on the workflow ids occurring in the
list, sending each id to a run from the list of that id whose creation
timestamp is maximal among the list's runs with that id (at most one
entry per distinct workflow, always the newest by creation time). -/
theorem getLatestWorkflowStatuses_latest (runs : List GitHubWorkflowRun)
    (workflowId : Nat) :
    (getLatestWorkflowStatuses runs workflowId = none ↔
        workflowId ∉ runs.map (fun r => r.workflow_id)) ∧
    ∀ r : GitHubWorkflowRun, getLatestWorkflowStatuses runs workflowId = some r →
      r ∈ runs ∧ r.workflow_id = workflowId ∧
        ∀ r2 ∈ runs, r2.workflow_id = workflowId → r2.created_at ≤ r.created_at := by
  have hinv : LatestInv runs (getLatestWorkflowStatuses runs) := by
    have := latestInv_foldl runs [] (fun _ => none) latestInv_nil
    simpa [getLatestWorkflowStatuses] using this
  constructor
  · constructor
    · intro hnone hmem
      rcases List.mem_map.mp hmem with ⟨r2, hr2, hid⟩
      exact (hinv workflowId).2 hnone r2 hr2 hid
    · intro hnot
      cases hacc : getLatestWorkflowStatuses runs workflowId with
      | none => rfl
      | some r =>
        obtain ⟨hmem, hid, _⟩ := (hinv workflowId).1 r hacc
        exact absurd (List.mem_map.mpr ⟨r, hmem, hid⟩) hnot
  · exact (hinv workflowId).1

/-- C4 witness: on the two runs of workflow 7 the theorem yields the
newer run with the maximality property at workflow id 7. -/
theorem getLatestWorkflowStatuses_latest_witness :
    (⟨2, 7, 20⟩ : GitHubWorkflowRun) ∈
        [(⟨1, 7, 10⟩ : GitHubWorkflowRun), ⟨2, 7, 20⟩] ∧
    (⟨2, 7, 20⟩ : GitHubWorkflowRun).workflow_id = 7 ∧
    ∀ r2 ∈ [(⟨1, 7, 10⟩ : GitHubWorkflowRun), ⟨2, 7, 20⟩], r2.workflow_id = 7 →
      r2.created_at ≤ (⟨2, 7, 20⟩ : GitHubWorkflowRun).created_at :=
  (getLatestWorkflowStatuses_latest [⟨1, 7, 10⟩, ⟨2, 7, 20⟩] 7).2 ⟨2, 7, 20⟩ (by decide)

/-- C5: `refreshWorkflows` is total (it never rejects) and, for every
watched set and every mocked per-resource fetch outcome, every resource
whose fetch succeeds appears in the new state with the fresh status data,
no error, and the fresh per-resource timestamp, every resource whose
fetch rejects appears with its error recorded (and cleared data) and the
same fresh timestamp, and the single global last-updated time is stamped
after all fetches settle. -/
theorem refreshWorkflows_isolates
    (fetchStatuses : Nat → Except String (List GitHubWorkflowRun)) (now : Nat)
    (state : List RepositoryWorkflows) (rw : RepositoryWorkflows) (h : rw ∈ state) :
    (refreshWorkflows fetchStatuses now state).2 = some now ∧
    (∀ workflows, fetchStatuses rw.repositoryId = Except.ok workflows →
      { rw with
          workflows := workflows
          error := none
          isLoading := false
          lastUpdated := some now } ∈ (refreshWorkflows fetchStatuses now state).1) ∧
    (∀ e, fetchStatuses rw.repositoryId = Except.error e →
      { rw with
          workflows := []
          error := some e
          isLoading := false
          lastUpdated := some now } ∈ (refreshWorkflows fetchStatuses now state).1) := by
  have hfind := find_refreshResult fetchStatuses state rw h
  refine ⟨rfl, ?_, ?_⟩
  · intro workflows hok
    simp only [refreshWorkflows]
    refine List.mem_map.mpr ⟨rw, h, ?_⟩
    simp [hfind, refreshResultFor, hok]
  · intro e herr
    simp only [refreshWorkflows]
    refine List.mem_map.mpr ⟨rw, h, ?_⟩
    simp [hfind, refreshResultFor, herr]

/-- C5 witness: with 5 watched resources of which resource 3's fetch
rejects, the refreshed state holds resource 3 with the error and
resource 1 with fresh data, and the global timestamp is stamped. -/
theorem refreshWorkflows_isolates_witness :
    ((⟨3, [], false, some "boom", some 99⟩ : RepositoryWorkflows)
        ∈ (refreshWorkflows sampleFetch 99 sampleState).1) ∧
    ((⟨1, [⟨100, 7, 50⟩], false, none, some 99⟩ : RepositoryWorkflows)
        ∈ (refreshWorkflows sampleFetch 99 sampleState).1) ∧
    (refreshWorkflows sampleFetch 99 sampleState).2 = some 99 :=
  ⟨(refreshWorkflows_isolates sampleFetch 99 sampleState ⟨3, [], false, none, none⟩
      (by decide)).2.2 "boom" rfl,
    (refreshWorkflows_isolates sampleFetch 99 sampleState ⟨1, [], false, none, none⟩
      (by decide)).2.1 [⟨100, 7, 50⟩] rfl,
    (refreshWorkflows_isolates sampleFetch 99 sampleState ⟨1, [], false, none, none⟩
      (by decide)).1⟩

set_option maxRecDepth 8000 in
/-- C6 counterexample: a selection whose single member is classified
`has-workflows` is persisted, but restoring it does not yield the member
with the classification it had when persisted: `loadStoredSelection`
resets the classification to `unknown`. -/
theorem restore_resets_classification_cex :
    (loadStoredSelection sampleDevice
        (saveSelectedRepositories sampleDevice [1, 2] [3] 0 sampleSelection [])).1
      ≠ some sampleSelection ∧
    (loadStoredSelection sampleDevice
        (saveSelectedRepositories sampleDevice [1, 2] [3] 0 sampleSelection [])).1
      = some [⟨1, "repo", false, false, WorkflowStatus.unknown, 3⟩] := by
  constructor <;> decide

/-- C6 amended: every non-empty selection saved in one session is
persisted verbatim — including each member's last-known classification —
and restoring it in a later session yields the same members in the same
order, but with every member's classification reset to `unknown` (to be
re-derived by the enrichment pass), not the classification it had when
persisted. -/
theorem save_restore_selection (d : DeviceFingerprint) (salt iv : List Nat) (now : Nat)
    (sel : List RepositoryWithWorkflowStatus)
    (st : Store (List RepositoryWithWorkflowStatus)) (h : sel ≠ []) :
    (getSecureItem d SELECTED_REPOSITORIES_KEY
        (saveSelectedRepositories d salt iv now sel st)).1 = some sel ∧
    (loadStoredSelection d (saveSelectedRepositories d salt iv now sel st)).1
      = some (sel.map fun repo => { repo with workflowStatus := WorkflowStatus.unknown }) := by
  have hlen : 0 < sel.length := List.length_pos.mpr h
  constructor
  · simp [saveSelectedRepositories, hlen, getSecureItem_after_set]
  · simp [loadStoredSelection, saveSelectedRepositories, hlen, getSecureItem_after_set]

set_option maxRecDepth 8000 in
/-- C6 witness: the sample selection is persisted verbatim and restored
with its classification reset to `unknown`. -/
theorem save_restore_selection_witness :
    (getSecureItem sampleDevice SELECTED_REPOSITORIES_KEY
        (saveSelectedRepositories sampleDevice [1, 2] [3] 0 sampleSelection [])).1
      = some sampleSelection ∧
    (loadStoredSelection sampleDevice
        (saveSelectedRepositories sampleDevice [1, 2] [3] 0 sampleSelection [])).1
      = some (sampleSelection.map fun repo =>
          { repo with workflowStatus := WorkflowStatus.unknown }) :=
  save_restore_selection sampleDevice [1, 2] [3] 0 sampleSelection [] (by decide)

/-- C7: toggling a repository whose classification is not a terminal
actionable state (`unknown` or `checking`) leaves the selection exactly
unchanged — in particular its membership is unchanged, so only
repositories classified `has-workflows` (has-activity) or `no-workflows`
(no-activity) can be added. -/
theorem toggle_nonactionable_noop (repository : RepositoryWithWorkflowStatus)
    (current : List RepositoryWithWorkflowStatus)
    (h : repository.workflowStatus = WorkflowStatus.unknown ∨
      repository.workflowStatus = WorkflowStatus.checking) :
    toggleRepository repository current = current := by
  rcases h with h | h <;> simp [toggleRepository, h]

/-- C7 witness: toggling an `unknown`-classified repository into the
sample selection is a no-op. -/
theorem toggle_nonactionable_noop_witness :
    toggleRepository ⟨5, "x", false, false, WorkflowStatus.unknown, 0⟩ sampleSelection
      = sampleSelection :=
  toggle_nonactionable_noop ⟨5, "x", false, false, WorkflowStatus.unknown, 0⟩ sampleSelection
    (Or.inl rfl)

/-- C8: when the run listing fails, `hasRecentWorkflowActivity` falls
back to the workflow listing and reports activity exactly when at least
one workflow exists (with `totalRuns` 0); when that fallback also fails
it reports `{hasActivity := false, totalRuns := 0}`.  The function is
total, so it never raises to its caller. -/
theorem hasRecentWorkflowActivity_fallback (daysBack now : Nat) (e : String)
    (workflowsResult : Except String (List GitHubWorkflow)) :
    hasRecentWorkflowActivity daysBack now (Except.error e) workflowsResult
      = ⟨(match workflowsResult with
          | Except.ok workflows => decide (0 < workflows.length)
          | Except.error _ => false), none, 0⟩ := by
  cases workflowsResult <;> rfl

/-- C9: for every repository with workflows `workflows` and a non-empty
run feed headed by the overall most-recent run `r`, the legacy
`getLatestWorkflowRuns` returns `workflows.length` copies of `r` (each
iteration calls `getWorkflowRuns` with `per_page` 1 and no per-workflow
filter); concretely, with two workflows whose latest runs differ, the
legacy result contains no run of workflow 1 while
`getLatestWorkflowStatuses` maps workflow 1 to its latest run, so the
legacy path is not equivalent to `getLatestWorkflowStatuses`. -/
theorem getLatestWorkflowRuns_copies :
    (∀ (workflows : List GitHubWorkflow) (r : GitHubWorkflowRun)
        (rest : List GitHubWorkflowRun),
      getLatestWorkflowRuns workflows (r :: rest)
        = List.replicate workflows.length r) ∧
    getLatestWorkflowRuns [⟨1, "ci"⟩, ⟨2, "release"⟩] [⟨10, 2, 20⟩, ⟨9, 1, 15⟩]
      = [⟨10, 2, 20⟩, ⟨10, 2, 20⟩] ∧
    getLatestWorkflowStatuses [⟨10, 2, 20⟩, ⟨9, 1, 15⟩] 1 = some ⟨9, 1, 15⟩ ∧
    (⟨9, 1, 15⟩ : GitHubWorkflowRun) ∉
      getLatestWorkflowRuns [⟨1, "ci"⟩, ⟨2, "release"⟩] [⟨10, 2, 20⟩, ⟨9, 1, 15⟩] := by
  refine ⟨?_, by decide, by decide, by decide⟩
  intro workflows r rest
  have h : getLatestWorkflowRuns workflows (r :: rest)
      = workflows.foldl (fun latestRuns _ => latestRuns ++ [r]) [] := rfl
  rw [h, foldl_push_replicate]
  simp

/-- C10: writing an empty in-memory selection (the state produced by
`clearSelection`, or by toggling off the last member) leaves the
persisted selection entry unchanged — the save path writes only when the
selection is non-empty — so after clearing and reloading, the previously
stored non-empty selection is restored (with classifications reset to
`unknown`) rather than an empty one. -/
theorem clearSelection_leaves_persisted (d : DeviceFingerprint)
    (salt iv salt2 iv2 : List Nat) (now now2 : Nat)
    (sel : List RepositoryWithWorkflowStatus)
    (st : Store (List RepositoryWithWorkflowStatus)) (h : sel ≠ []) :
    saveSelectedRepositories d salt2 iv2 now2 clearSelection
        (saveSelectedRepositories d salt iv now sel st)
      = saveSelectedRepositories d salt iv now sel st ∧
    (loadStoredSelection d (saveSelectedRepositories d salt2 iv2 now2 clearSelection
        (saveSelectedRepositories d salt iv now sel st))).1
      = some (sel.map fun repo => { repo with workflowStatus := WorkflowStatus.unknown }) := by
  have hframe : saveSelectedRepositories d salt2 iv2 now2 clearSelection
      (saveSelectedRepositories d salt iv now sel st)
      = saveSelectedRepositories d salt iv now sel st := by
    simp [saveSelectedRepositories, clearSelection]
  have hlen : 0 < sel.length := List.length_pos.mpr h
  refine ⟨hframe, ?_⟩
  rw [hframe]
  simp [loadStoredSelection, saveSelectedRepositories, hlen, getSecureItem_after_set]

set_option maxRecDepth 8000 in
/-- C10 witness: after persisting the sample selection and then saving
the cleared selection, the store is unchanged and reloading restores the
sample selection (classification reset to `unknown`). -/
theorem clearSelection_leaves_persisted_witness :
    saveSelectedRepositories sampleDevice [4] [5] 9 clearSelection
        (saveSelectedRepositories sampleDevice [1, 2] [3] 0 sampleSelection [])
      = saveSelectedRepositories sampleDevice [1, 2] [3] 0 sampleSelection [] ∧
    (loadStoredSelection sampleDevice (saveSelectedRepositories sampleDevice [4] [5] 9
        clearSelection (saveSelectedRepositories sampleDevice [1, 2] [3] 0 sampleSelection []))).1
      = some (sampleSelection.map fun repo =>
          { repo with workflowStatus := WorkflowStatus.unknown }) :=
  clearSelection_leaves_persisted sampleDevice [1, 2] [3] [4] [5] 0 9 sampleSelection []
    (by decide)
